/-
Verification of the hoot HTTP/1.x client codec against its specification.

The development shallowly embeds three parts of the repository:

1. `HootClient`: the client `Call` send state machine exercised by the tests
   in src/hoot/src/client/mod.rs.  The implementation file (mod call) is not
   present in the source tree; the model below is built from the spec
   (sections 3, 4.3 and 4.4) and pinned byte-for-byte by the assertions of
   the test suite, which is present.  In particular the tests show that the
   prologue is flushed one whole header line at a time (post_small_output)
   and that no empty CRLF line is emitted after the header block (head,
   post, post_with_chunked).
2. `Send`: the typestate Call of src/src/send.rs, with the writer of
   section 4.1 modelled from the spec (out.rs is not in the source tree) and
   `check_forbidden_headers` translated directly from the source.
3. `Usrv`: the body adapter of src/usrv/src/body.rs; the io Read
   implementation for HootBody is translated from the source, with the
   underlying decoder and fill buffer (not in the source tree) modelled as
   the stream of decoded data chunks they deliver.

Bytes are modelled as Lean characters; every byte that occurs in the claims
is ASCII.
-/
import Mathlib

set_option maxRecDepth 10000

deriving instance DecidableEq for Except

namespace HootClient

/-- HTTP methods of the request descriptor (spec section 4.3). -/
inductive Method
  | GET | HEAD | POST | PUT | PATCH | DELETE | OPTIONS | TRACE
deriving DecidableEq, Repr

def Method.str : Method → String
  | .GET => "GET"
  | .HEAD => "HEAD"
  | .POST => "POST"
  | .PUT => "PUT"
  | .PATCH => "PATCH"
  | .DELETE => "DELETE"
  | .OPTIONS => "OPTIONS"
  | .TRACE => "TRACE"

/-- Methods that forbid a body (spec section 4.3). -/
def methodForbidsBody : Method → Bool
  | .GET | .HEAD | .DELETE | .OPTIONS | .TRACE => true
  | _ => false

/-- Methods that require a body (spec section 4.3). -/
def methodRequiresBody : Method → Bool
  | .POST | .PUT | .PATCH => true
  | _ => false

/-- Body framing mode (spec section 3). -/
inductive Framing
  | none
  | length (n : Nat)
  | chunked
deriving DecidableEq, Repr

/-- Errors of the client Call (src/hoot/src/client/mod.rs tests and spec
section 7). -/
inductive Error
  | MethodForbidsBody (m : Method)
  | MethodRequiresBody (m : Method)
  | BodyLargerThanContentLength
  | BodyContentAfterFinish
  | OutputOverflow
  | ConflictingFraming
deriving DecidableEq, Repr

/-- Request descriptor (spec section 3).  The target URI of the tests is
already split into origin-form path and authority; content-length and
transfer-encoding headers are the framing-relevant headers of the
descriptor.  The tests only exercise HTTP/1.1, which the model fixes. -/
structure HRequest where
  method : Method
  path : String
  authority : String
  contentLength : Option Nat
  transferEncodingChunked : Bool
deriving DecidableEq, Repr

def requestLine (r : HRequest) : List Char :=
  (r.method.str ++ " " ++ r.path ++ " HTTP/1.1\r\n").data

def hostLine (r : HRequest) : List Char :=
  ("host: " ++ r.authority ++ "\r\n").data

def framingLines : Framing → List (List Char)
  | .none => []
  | .length n => [("content-length: " ++ toString n ++ "\r\n").data]
  | .chunked => [("transfer-encoding: chunked\r\n").data]

/-- Modelled from the spec: the Call state of section 3 (call.rs is not in
the source tree).  The unflushed prologue is kept as the list of remaining
header lines, since the tests pin that the prologue is flushed one whole
line at a time. -/
structure CallState where
  lines : List (List Char)
  framing : Framing
  sent : Nat
  finished : Bool
deriving DecidableEq, Repr

/-- Modelled from the spec: framing selection of section 4.3 for the
with-body constructor, HTTP/1.1 (the tests' domain). -/
def chooseFramingWithBody (r : HRequest) : Except Error Framing :=
  if methodForbidsBody r.method then .error (.MethodForbidsBody r.method)
  else if r.contentLength.isSome && r.transferEncodingChunked then .error .ConflictingFraming
  else if r.transferEncodingChunked then .ok .chunked
  else
    match r.contentLength with
    | some n => .ok (.length n)
    | none => .ok .chunked

/-- Modelled from the spec: the with-body constructor (sections 4.3 and 6).
For Length framing the invariant of section 3 states that reaching
`bytes_sent_in_body = n` implies `request_finished`; with `n = 0` the body
prefixes written sum to `n` from the start, so the flag starts true. -/
def with_body (r : HRequest) : Except Error CallState :=
  match chooseFramingWithBody r with
  | .error e => .error e
  | .ok f =>
    .ok { lines := [requestLine r, hostLine r] ++ framingLines f
          framing := f
          sent := 0
          finished := match f with | .length 0 => true | _ => false }

/-- Modelled from the spec: the without-body constructor (sections 4.3
and 6). -/
def without_body (r : HRequest) : Except Error CallState :=
  if methodRequiresBody r.method then .error (.MethodRequiresBody r.method)
  else
    .ok { lines := [requestLine r, hostLine r]
          framing := .none
          sent := 0
          finished := false }

/-- Flush whole prologue lines into a buffer of the given size; returns the
bytes produced, the remaining lines and the remaining buffer space.  Line
granularity is pinned by the post_small_output test. -/
def flushLines : List (List Char) → Nat → List Char × List (List Char) × Nat
  | [], d => ([], [], d)
  | l :: ls, d =>
    if l.length ≤ d then
      let r := flushLines ls (d - l.length)
      (l ++ r.1, r.2.1, r.2.2)
    else ([], l :: ls, d)

/-- Lowercase hex digits of a chunk size, no leading zeros (spec
section 4.4). -/
def hexDigits (n : Nat) : List Char := Nat.toDigits 16 n

/-- Largest number of data bytes d, at most srcLen, whose chunk framing
`hex d CRLF data CRLF` fits in rem bytes (spec section 4.4: short writes
frame whatever data fits). -/
def maxChunkData (srcLen rem : Nat) : Nat :=
  (List.range (srcLen + 1)).foldl
    (fun acc d => if (hexDigits d).length + 4 + d ≤ rem then max acc d else acc) 0

/-- Modelled from the spec: `write(src, dst)` of section 4.4, the central
operation, with the prologue flushed a whole line at a time as pinned by
the tests.  Returns the new state, the input consumed and the bytes
produced. -/
def write (st : CallState) (src : List Char) (dstSize : Nat) :
    Except Error (CallState × Nat × List Char) :=
  match flushLines st.lines dstSize with
  | (pro, rl :: rls, _) =>
    -- dst exhausted before the prologue ends: return (0, produced)
    .ok ({ st with lines := rl :: rls }, 0, pro)
  | (pro, [], rem) =>
    if st.finished && !src.isEmpty then .error .BodyContentAfterFinish
    else
      match st.framing with
      | .none =>
        if src.isEmpty then .ok ({ st with lines := [] }, 0, pro)
        else .error .BodyContentAfterFinish
      | .length n =>
        if n < st.sent + src.length then .error .BodyLargerThanContentLength
        else
          let k := min (min src.length (n - st.sent)) rem
          .ok ({ st with
                  lines := []
                  sent := st.sent + k
                  finished := st.finished || (st.sent + k == n) }, k, pro ++ src.take k)
      | .chunked =>
        if src.isEmpty then
          if st.finished then .ok ({ st with lines := [] }, 0, pro)
          else if rem < 5 then .error .OutputOverflow
          else .ok ({ st with lines := [], finished := true }, 0, pro ++ ("0\r\n\r\n").data)
        else
          let d := maxChunkData src.length rem
          if d = 0 then .ok ({ st with lines := [] }, 0, pro)
          else
            .ok ({ st with lines := [] }, d,
                 pro ++ hexDigits d ++ ("\r\n").data ++ src.take d ++ ("\r\n").data)

def request_finished (st : CallState) : Bool := st.finished

/-- Drive a Call the way the spec's transcript property does: each call
passes the not-yet-consumed body as src and the next buffer size as dst.
Returns the final state, the unconsumed body and the concatenation of the
produced fragments.  A failing call stops the run. -/
def drive : CallState → List Char → List Nat → CallState × List Char × List Char
  | st, body, [] => (st, body, [])
  | st, body, s :: ss =>
    match write st body s with
    | .error _ => (st, body, [])
    | .ok (st2, used, out) =>
      let r := drive st2 (body.drop used) ss
      (r.1, r.2.1, out ++ r.2.2)

/-- Apply a list of write operations (src, dstSize); a failing operation
leaves the state unchanged. -/
def steps : CallState → List (List Char × Nat) → CallState
  | st, [] => st
  | st, op :: ops =>
    match write st op.1 op.2 with
    | .error _ => steps st ops
    | .ok (st2, _, _) => steps st2 ops

/-- The bytes produced by a single write, empty if the write fails. -/
def writeOut (st : CallState) (src : List Char) (d : Nat) : List Char :=
  match write st src d with
  | .ok r => r.2.2
  | .error _ => []

def okCall (e : Except Error CallState) : CallState :=
  match e with
  | .ok st => st
  | .error _ => { lines := [], framing := .none, sent := 0, finished := false }

def totalLen (lines : List (List Char)) : Nat := (lines.map List.length).sum

/-- Request of the head test: Request::head on http://foo.test/page. -/
def reqHead : HRequest :=
  { method := .HEAD, path := "/page", authority := "foo.test"
    contentLength := none, transferEncodingChunked := false }

/-- Request of the post tests with content-length 5. -/
def reqPost5 : HRequest :=
  { method := .POST, path := "/page", authority := "f.test"
    contentLength := some 5, transferEncodingChunked := false }

/-- Request of post_with_short_content_length: content-length 2. -/
def reqPost2 : HRequest :=
  { method := .POST, path := "/page", authority := "f.test"
    contentLength := some 2, transferEncodingChunked := false }

/-- Request of post_with_chunked: explicit transfer-encoding header. -/
def reqPostChunkedHeader : HRequest :=
  { method := .POST, path := "/page", authority := "f.test"
    contentLength := none, transferEncodingChunked := true }

/-- Request of post_streaming: no framing header, defaults to chunked. -/
def reqPostStream : HRequest :=
  { method := .POST, path := "/page", authority := "f.test"
    contentLength := none, transferEncodingChunked := false }

end HootClient

namespace Send

/-- Error enum of src/src/error.rs. -/
inductive HootError
  | OutputOverflow
  | HeaderName
  | HeaderValue
  | Status
  | NewLine
  | TooManyHeaders
  | InsufficientSpaceToParseHeaders
  | ForbiddenBodyHeader
  | ForbiddenHttp11Header
  | ForbiddenTrailer
  | SentMoreThanContentLength
  | SentLessThanContentLength
  | ConvertBytesToStr
  | HttpVersionMismatch
  | StatusIsNotComplete
deriving DecidableEq, Repr

/-- The inner loop of check_forbidden_headers (src/src/send.rs lines
198-208): for every zipped character pair, each of the three arms ends in
continue, so the loop never exits early and computes nothing. -/
def scan_pairs : List (Char × Char) → Unit
  | [] => ()
  | p :: rest =>
    if p.1.isAlpha = false then
      -- a is not ascii alphabetic: continue
      scan_pairs rest
    else
      let norm := p.1.toLower
      if norm ≠ p.2 then
        -- normalized a does not match b: continue
        scan_pairs rest
      else
        -- end of the loop body: next iteration
        scan_pairs rest

/-- check_forbidden_headers of src/src/send.rs lines 191-215: for each
forbidden candidate, names of a different length move to the next
candidate; otherwise the (effect-free) inner loop runs and the function
returns the error. -/
def check_forbidden_headers (name : List Char) :
    List (List Char) → HootError → Except HootError Unit
  | [], _ => .ok ()
  | c :: rest, err =>
    if name.length ≠ c.length then check_forbidden_headers name rest err
    else
      let _scan := scan_pairs (List.zip name c)
      .error err

/-- HEADERS_FORBID_BODY of src/src/send.rs lines 184-189. -/
def HEADERS_FORBID_BODY : List (List Char) :=
  [("content-length").data, ("transfer-encoding").data]

/-- ASCII-case-insensitive equality of names, as the claim about the
forbidden-header check words it; used to compare the source routine with
the claimed behavior. -/
def asciiCaseInsensitiveEq (a b : List Char) : Bool :=
  a.map Char.toLower == b.map Char.toLower

/-- Modelled from the spec: the output of section 4.1 (out.rs is not in
the source tree); a capacity and the committed bytes. -/
structure Out where
  cap : Nat
  committed : List Char
deriving DecidableEq, Repr

/-- Modelled from the spec: the two-phase writer of section 4.1; bytes are
staged past the committed region and either committed or dropped. -/
structure Writer where
  cap : Nat
  committed : List Char
  staged : List Char
deriving DecidableEq, Repr

def Out.writer (o : Out) : Writer := ⟨o.cap, o.committed, []⟩

def Writer.write_bytes (w : Writer) (bs : List Char) : Except HootError Writer :=
  if w.committed.length + w.staged.length + bs.length ≤ w.cap then
    .ok { w with staged := w.staged ++ bs }
  else .error .OutputOverflow

/-- Dropping the writer without commit: only the committed bytes remain. -/
def Writer.rollback (w : Writer) : Out := ⟨w.cap, w.committed⟩

def Writer.commit (w : Writer) : Out := ⟨w.cap, w.committed ++ w.staged⟩

/-- Modelled from the spec: header-name bytes are token characters
(section 4.2); httparse is an external collaborator. -/
def is_token_char (c : Char) : Bool :=
  c.isAlphanum ||
    (c.toNat == 33 || c.toNat == 35 || c.toNat == 36 || c.toNat == 37 ||
     c.toNat == 38 || c.toNat == 39 || c.toNat == 42 || c.toNat == 43 ||
     c.toNat == 45 || c.toNat == 46 || c.toNat == 94 || c.toNat == 95 ||
     c.toNat == 96 || c.toNat == 124 || c.toNat == 126)

/-- Modelled from the spec: header-value bytes are printable plus HTAB and
SP, with no CR, LF or NUL (section 4.2). -/
def is_value_char (c : Char) : Bool :=
  c.toNat == 9 || (decide (32 ≤ c.toNat) && decide (c.toNat ≤ 126))

def valid_header_name (name : List Char) : Bool :=
  !name.isEmpty && name.all is_token_char

def valid_header_value (bs : List Char) : Bool := bs.all is_value_char

/-- Typestate phases of src/src/state.rs that the send path touches. -/
inductive SState
  | INIT | SEND_LINE | SEND_HEADERS | SEND_BODY | RECV_STATUS
deriving DecidableEq, Repr

/-- The Call of src/src/send.rs as seen by header_bytes: its output and its
phase (the phase is a type parameter in the source; header_bytes returns
Self, so the phase is SEND_HEADERS on both sides). -/
structure SendCall where
  out : Out
  state : SState
deriving DecidableEq, Repr

/-- First staged write of header_bytes: the name, the colon and the
space. -/
def stage1 (o : Out) (name : List Char) : Except HootError Writer :=
  (o.writer).write_bytes (name ++ (": ").data)

/-- Second staged write of header_bytes: the value bytes; a failed earlier
write propagates, as the source's early returns do. -/
def stage2 (o : Out) (name bytes : List Char) : Except HootError Writer :=
  match stage1 o name with
  | .error e => .error e
  | .ok w1 => w1.write_bytes bytes

/-- Third staged write of header_bytes: the terminating CRLF. -/
def stage_header (o : Out) (name bytes : List Char) : Except HootError Writer :=
  match stage2 o name bytes with
  | .error e => .error e
  | .ok w2 => w2.write_bytes (("\r\n").data)

/-- The checks header_bytes runs after staging, in source order: the
forbidden-header check, then the httparse validation of the written
header, whose name and value errors map to HeaderName and HeaderValue. -/
def header_validate (name bytes : List Char) : Option HootError :=
  match check_forbidden_headers name HEADERS_FORBID_BODY .ForbiddenBodyHeader with
  | .error e => some e
  | .ok _ =>
    if valid_header_name name = false then some .HeaderName
    else if valid_header_value bytes = false then some .HeaderValue
    else none

/-- header_bytes of src/src/send.rs lines 57-89: stage the name, the colon
and space, the value and the CRLF (any of which can overflow), run the
checks of header_validate, and only then commit.  Every error path returns
early, dropping the staged writer, so the Call keeps exactly its committed
bytes. -/
def header_bytes (c : SendCall) (name : List Char) (bytes : List Char) :
    SendCall × Option HootError :=
  match stage_header c.out name bytes with
  | .error e => (c, some e)
  | .ok w3 =>
    match header_validate name bytes with
    | some e => (c, some e)
    | none => ({ out := w3.commit, state := c.state }, none)

/-- A Call in SEND_HEADERS over an empty 1024-byte output, as in the tests
of src/src/send.rs. -/
def sendCall0 : SendCall :=
  { out := { cap := 1024, committed := [] }, state := .SEND_HEADERS }

/-- HTTP version type parameters of src/src/version.rs. -/
inductive HVersion
  | HTTP_10 | HTTP_11
deriving DecidableEq, Repr

/-- The typestate transitions out of SEND_HEADERS in src/src/send.rs:
with_body and without_body on the HTTP_10 impl (lines 92-109), with_body,
with_chunked and without_body on the HTTP_11 impl (lines 111-135), and the
version-generic finish (lines 137-145). -/
inductive SendHeadersExit
  | with_body_http10
  | without_body_http10
  | with_body_http11
  | with_chunked_http11
  | without_body_http11
  | finish (v : HVersion)
deriving DecidableEq, Repr

/-- The HTTP-version type parameter of the Call each exit method is invoked
on (the impl block it belongs to). -/
def exitReceiverVersion : SendHeadersExit → HVersion
  | .with_body_http10 => .HTTP_10
  | .without_body_http10 => .HTTP_10
  | .with_body_http11 => .HTTP_11
  | .with_chunked_http11 => .HTTP_11
  | .without_body_http11 => .HTTP_11
  | .finish v => v

/-- The HTTP-version type parameter of the Call each exit method returns,
read off the return types in src/src/send.rs.  Note line 103: without_body
on the HTTP_10 impl returns Call with RECV_STATUS and HTTP_11. -/
def exitResultVersion : SendHeadersExit → HVersion
  | .with_body_http10 => .HTTP_10
  | .without_body_http10 => .HTTP_11
  | .with_body_http11 => .HTTP_11
  | .with_chunked_http11 => .HTTP_11
  | .without_body_http11 => .HTTP_11
  | .finish v => v

/-- The phase type parameter of the Call each exit method returns. -/
def exitResultState : SendHeadersExit → SState
  | .with_body_http10 => .SEND_BODY
  | .without_body_http10 => .RECV_STATUS
  | .with_body_http11 => .SEND_BODY
  | .with_chunked_http11 => .SEND_BODY
  | .without_body_http11 => .RECV_STATUS
  | .finish _ => .RECV_STATUS

end Send

namespace Usrv

/-- The state of HootBody (src/usrv/src/body.rs lines 116-121) as the io
Read implementation observes it: the leftover buffer from the source, and,
modelled from the spec, the remaining decoded body stream as the sequence
of data chunks that the fill buffer plus Hoot::read_body (both outside the
source tree) deliver, one chunk per decode step. -/
structure HootBodyState where
  leftover : List Char
  chunks : List (List Char)
deriving DecidableEq, Repr

/-- The io Read implementation for HootBody (src/usrv/src/body.rs lines
176-212): a non-empty leftover is served first, up to min of its length
and the buffer length, consuming no new input; otherwise the next decode
step runs, the part of its data that fits is returned and the excess is
saved as the new leftover.  Returns the new state and the bytes placed in
the caller buffer. -/
def hootRead (st : HootBodyState) (bufLen : Nat) : HootBodyState × List Char :=
  if st.leftover.isEmpty = false then
    let max := min st.leftover.length bufLen
    ({ leftover := st.leftover.drop max, chunks := st.chunks }, st.leftover.take max)
  else
    match st.chunks with
    | [] => (st, [])
    | data :: rest =>
      let max := min bufLen data.length
      ({ leftover := data.drop max, chunks := rest }, data.take max)

/-- The decoded body bytes the state still holds, in order. -/
def restOf (st : HootBodyState) : List Char := st.leftover ++ st.chunks.flatten

/-- Repeated reads with the given buffer sizes; returns the final state and
the concatenation of all bytes returned to the caller. -/
def readSeq : HootBodyState → List Nat → HootBodyState × List Char
  | st, [] => (st, [])
  | st, n :: ns =>
    let r := hootRead st n
    let rr := readSeq r.1 ns
    (rr.1, r.2 ++ rr.2)

/-- A concrete body state: two leftover bytes and three pending decode
steps (one of them empty, as a decode step that consumed only framing
would produce). -/
def bodyState0 : HootBodyState :=
  { leftover := ("ab").data, chunks := [("cde").data, [], ("f").data] }

end Usrv

/-
Validation of the HootClient model against the test suite of
src/hoot/src/client/mod.rs: every assertion below mirrors one of the
repository's tests.
-/

namespace HootClient

-- test head
example :
    write (okCall (without_body reqHead)) [] 1024 =
      .ok ({ lines := [], framing := .none, sent := 0, finished := false }, 0,
           ("HEAD /page HTTP/1.1\r\nhost: foo.test\r\n").data) := by decide

-- test post
example :
    write (okCall (with_body reqPost5)) ("hallo").data 1024 =
      .ok ({ lines := [], framing := .length 5, sent := 5, finished := true }, 5,
           ("POST /page HTTP/1.1\r\nhost: f.test\r\ncontent-length: 5\r\nhallo").data) := by
  decide

-- test post_small_output, fragment by fragment
example :
    writeOut (okCall (with_body reqPost5)) ("hallo").data 25 =
      ("POST /page HTTP/1.1\r\n").data := by decide

example :
    (drive (okCall (with_body reqPost5)) ("hallo").data [25, 20, 19, 25]).2.2 =
      ("POST /page HTTP/1.1\r\nhost: f.test\r\ncontent-length: 5\r\nhallo").data := by decide

example :
    (drive (okCall (with_body reqPost5)) ("hallo").data [25, 20, 19]).1.finished = false ∧
    (drive (okCall (with_body reqPost5)) ("hallo").data [25, 20, 19, 25]).1.finished = true := by
  decide

-- test post_with_short_content_length
example :
    write (okCall (with_body reqPost2)) ("hallo").data 1024 =
      .error .BodyLargerThanContentLength := by decide

-- test post_with_short_body_input
example :
    (drive (okCall (with_body reqPost5)) ("hallo").data [1024]).2.2 =
      ("POST /page HTTP/1.1\r\nhost: f.test\r\ncontent-length: 5\r\nhallo").data ∧
    writeOut (okCall (with_body reqPost5)) ("ha").data 1024 =
      ("POST /page HTTP/1.1\r\nhost: f.test\r\ncontent-length: 5\r\nha").data := by decide

-- test post_with_chunked
example :
    (drive (okCall (with_body reqPostChunkedHeader)) ("hallo").data [1024, 1019]).2.2 =
      ("POST /page HTTP/1.1\r\nhost: f.test\r\ntransfer-encoding: chunked\r\n" ++
       "5\r\nhallo\r\n0\r\n\r\n").data := by decide

-- test post_streaming: 73 bytes for the first write, 5 for the end signal
example :
    (writeOut (okCall (with_body reqPostStream)) ("hallo").data 1024).length = 73 ∧
    (drive (okCall (with_body reqPostStream)) ("hallo").data [1024, 951]).2.2 =
      ("POST /page HTTP/1.1\r\nhost: f.test\r\ntransfer-encoding: chunked\r\n" ++
       "5\r\nhallo\r\n0\r\n\r\n").data := by decide

-- test post_streaming_after_end
example :
    write (steps (okCall (with_body reqPostStream))
            [(("hallo").data, 1024), ([], 951)]) ("after end").data 1024 =
      .error .BodyContentAfterFinish := by decide

-- test post_streaming_too_much
example :
    write (steps (okCall (with_body reqPost5)) [(("hallo").data, 1024)]) ("fail").data 1024 =
      .error .BodyContentAfterFinish := by decide

end HootClient

/-
Helper lemmas about the HootClient model.
-/

namespace HootClient

theorem totalLen_nil : totalLen [] = 0 := rfl

theorem totalLen_cons (l : List Char) (ls : List (List Char)) :
    totalLen (l :: ls) = l.length + totalLen ls := by
  simp [totalLen]

/-- Flushing never loses prologue bytes: the produced bytes followed by the
remaining lines are the original prologue. -/
theorem flushLines_append (lines : List (List Char)) (d : Nat) :
    (flushLines lines d).1 ++ (flushLines lines d).2.1.flatten = lines.flatten := by
  induction lines generalizing d with
  | nil => simp [flushLines]
  | cons l ls ih =>
    simp only [flushLines]
    split
    · simpa [List.append_assoc] using ih (d - l.length)
    · simp

/-- A buffer that holds the whole prologue flushes it completely. -/
theorem flushLines_all (lines : List (List Char)) (d : Nat) (h : totalLen lines ≤ d) :
    flushLines lines d = (lines.flatten, [], d - totalLen lines) := by
  induction lines generalizing d with
  | nil => simp [flushLines, totalLen]
  | cons l ls ih =>
    rw [totalLen_cons] at h
    have h1 : l.length ≤ d := by omega
    simp only [flushLines, if_pos h1]
    rw [ih (d - l.length) (by omega)]
    simp [totalLen_cons]
    omega

/-- Facts about a successfully constructed with-body Call: nothing is sent
yet, and the finished flag is set exactly for Length framing with a zero
declared length. -/
theorem with_body_facts (r : HRequest) (st0 : CallState) (h : with_body r = .ok st0) :
    st0.sent = 0 ∧ (st0.finished = true ↔ st0.framing = .length 0) := by
  unfold with_body at h
  cases hc : chooseFramingWithBody r with
  | error e => rw [hc] at h; cases h
  | ok f =>
    rw [hc] at h
    injection h with h
    subst h
    refine ⟨rfl, ?_⟩
    cases f with
    | none => simp
    | chunked => simp
    | length m => cases m <;> simp

end HootClient

namespace HootClient

/-- One write in Length framing, driven with the not-yet-consumed body as
src, always succeeds, keeps the accounting invariant, and extends the
transcript: the produced bytes followed by what is still to be produced
are unchanged. -/
theorem write_length_ok (n : Nat) (st : CallState) (body : List Char) (s : Nat)
    (hfr : st.framing = .length n) (hs : st.sent + body.length = n)
    (hf : st.finished = true → st.sent = n) :
    ∃ st2 k out, write st body s = .ok (st2, k, out) ∧
      st2.framing = .length n ∧ st2.sent + (body.drop k).length = n ∧
      (st2.finished = true → st2.sent = n) ∧
      out ++ (st2.lines.flatten ++ body.drop k) = st.lines.flatten ++ body := by
  have hfl := flushLines_append st.lines s
  rcases h : flushLines st.lines s with ⟨pro, rest, rem⟩
  rw [h] at hfl
  cases rest with
  | cons rl rls =>
    refine ⟨{ st with lines := rl :: rls }, 0, pro, ?_, ?_, ?_, ?_, ?_⟩
    · unfold write
      rw [h]
    · simpa using hfr
    · simpa using hs
    · simpa using hf
    · simp only [List.drop_zero]
      rw [← List.append_assoc, hfl]
  | nil =>
    have hpro : pro = st.lines.flatten := by simpa using hfl
    have hguard : (st.finished && !body.isEmpty) = false := by
      cases hfin : st.finished with
      | false => simp
      | true =>
        have hb : body = [] := by
          have := hf hfin
          have : body.length = 0 := by omega
          exact List.length_eq_zero.mp this
        simp [hb]
    have hnlt : ¬ (n < st.sent + body.length) := by omega
    have hnk : n - st.sent = body.length := by omega
    refine ⟨{ st with
              lines := []
              sent := st.sent + min (min body.length (n - st.sent)) rem
              finished := st.finished || (st.sent + min (min body.length (n - st.sent)) rem == n) },
            min (min body.length (n - st.sent)) rem,
            pro ++ body.take (min (min body.length (n - st.sent)) rem), ?_, ?_, ?_, ?_, ?_⟩
    · unfold write
      rw [h, hguard, hfr]
      simp only [Bool.false_eq_true, if_false, if_neg hnlt]
    · simpa using hfr
    · have hk : min (min body.length (n - st.sent)) rem ≤ body.length := by
        have := min_le_left (min body.length (n - st.sent)) rem
        have := min_le_left body.length (n - st.sent)
        omega
      simp only [List.length_drop]
      omega
    · simp only [Bool.or_eq_true, beq_iff_eq]
      have hk : min (min body.length (n - st.sent)) rem ≤ body.length := by
        have h1 := min_le_left (min body.length (n - st.sent)) rem
        have h2 := min_le_left body.length (n - st.sent)
        omega
      rintro (hfin | hbeq)
      · have hsn := hf hfin
        show st.sent + min (min body.length (n - st.sent)) rem = n
        omega
      · exact hbeq
    · simp only [List.flatten_nil, List.nil_append]
      rw [List.append_assoc, List.take_append_drop, hpro]
end HootClient

namespace HootClient

/-- Driving a Length-framed Call with any buffer-size sequence conserves the
transcript: the concatenated fragments followed by what is still pending
equal the prologue plus the body. -/
theorem drive_length (n : Nat) (sizes : List Nat) :
    ∀ (st : CallState) (body : List Char),
      st.framing = .length n → st.sent + body.length = n →
      (st.finished = true → st.sent = n) →
      ((drive st body sizes).1.framing = .length n ∧
       (drive st body sizes).1.sent + (drive st body sizes).2.1.length = n ∧
       ((drive st body sizes).1.finished = true → (drive st body sizes).1.sent = n) ∧
       (drive st body sizes).2.2 ++
           ((drive st body sizes).1.lines.flatten ++ (drive st body sizes).2.1) =
         st.lines.flatten ++ body) := by
  induction sizes with
  | nil =>
    intro st body h1 h2 h3
    exact ⟨h1, h2, h3, rfl⟩
  | cons s ss ih =>
    intro st body h1 h2 h3
    obtain ⟨st2, k, out, hw, hf1, hf2, hf3, hcons⟩ := write_length_ok n st body s h1 h2 h3
    obtain ⟨g1, g2, g3, g4⟩ := ih st2 (body.drop k) hf1 hf2 hf3
    simp only [drive, hw]
    refine ⟨g1, g2, g3, ?_⟩
    rw [List.append_assoc, g4, hcons]

/-- A single write whose buffer holds the whole remaining request produces
the prologue followed by the body. -/
theorem writeOut_all (n : Nat) (st : CallState) (body : List Char) (D : Nat)
    (hfr : st.framing = .length n) (hs : st.sent + body.length = n)
    (hf : st.finished = true → st.sent = n)
    (hD : totalLen st.lines + body.length ≤ D) :
    write st body D =
      .ok ({ st with
              lines := []
              sent := st.sent + body.length
              finished := st.finished || (st.sent + body.length == n) },
           body.length, st.lines.flatten ++ body) := by
  have hfl := flushLines_all st.lines D (by omega)
  have hguard : (st.finished && !body.isEmpty) = false := by
    cases hfin : st.finished with
    | false => simp
    | true =>
      have hb : body = [] := by
        have := hf hfin
        have : body.length = 0 := by omega
        exact List.length_eq_zero.mp this
      simp [hb]
  have hnlt : ¬ (n < st.sent + body.length) := by omega
  have hk : min (min body.length (n - st.sent)) (D - totalLen st.lines) = body.length := by
    have h1 : n - st.sent = body.length := by omega
    rw [h1, min_self]
    omega
  unfold write
  rw [hfl, hguard, hfr]
  simp only [Bool.false_eq_true, if_false, if_neg hnlt, hk, List.take_length]

end HootClient

namespace HootClient

/-- C1 (amended): for every Length-framed request and every sequence of
per-call output-buffer sizes, repeatedly calling write with the remaining
body as src produces a concatenation of fragments that, followed by the
still-pending prologue and body bytes, equals the transcript of a single
write whose buffer holds the whole serialized request; in particular, once
the prologue is fully flushed and request_finished is true, the
concatenation equals that transcript exactly.  The original byte-granular
form of the claim, which promises this for every size sequence of bytes at
least 1 with sufficient total, fails because the prologue is flushed a
whole header line at a time (see the counterexample); chunked framing is
excluded because its chunk boundaries, hence its bytes, depend on the
buffer sizes. -/
theorem c1_transcript_equivalence (r : HRequest) (n : Nat) (st0 : CallState)
    (body : List Char) (sizes : List Nat) (D : Nat)
    (h0 : with_body r = .ok st0) (hfr : st0.framing = .length n)
    (hb : body.length = n) (hD : totalLen st0.lines + body.length ≤ D) :
    (drive st0 body sizes).2.2 ++
        ((drive st0 body sizes).1.lines.flatten ++ (drive st0 body sizes).2.1) =
      writeOut st0 body D ∧
    ((drive st0 body sizes).1.finished = true → (drive st0 body sizes).1.lines = [] →
      (drive st0 body sizes).2.2 = writeOut st0 body D) := by
  obtain ⟨hs0, hfin0⟩ := with_body_facts r st0 h0
  have hs : st0.sent + body.length = n := by omega
  have hf : st0.finished = true → st0.sent = n := by
    intro h
    have hl := hfin0.mp h
    rw [hfr] at hl
    injection hl with h'
    omega
  have hwAll := writeOut_all n st0 body D hfr hs hf hD
  have hwo : writeOut st0 body D = st0.lines.flatten ++ body := by
    unfold writeOut
    rw [hwAll]
  obtain ⟨g1, g2, g3, g4⟩ := drive_length n sizes st0 body hfr hs hf
  refine ⟨by rw [hwo]; exact g4, ?_⟩
  intro hfin hlines
  have hsent := g3 hfin
  have hrem : (drive st0 body sizes).2.1 = [] := by
    have : (drive st0 body sizes).2.1.length = 0 := by omega
    exact List.length_eq_zero.mp this
  rw [hwo, ← g4, hlines, hrem]
  simp

/-- C1 witness: the short-output POST of the test suite, with the buffer
sizes the post_small_output test uses. -/
theorem c1_transcript_equivalence_witness :
    with_body reqPost5 = .ok (okCall (with_body reqPost5)) ∧
    ((drive (okCall (with_body reqPost5)) ("hallo").data [25, 20, 19, 25]).2.2 ++
        (((drive (okCall (with_body reqPost5)) ("hallo").data [25, 20, 19, 25]).1.lines.flatten ++
          (drive (okCall (with_body reqPost5)) ("hallo").data [25, 20, 19, 25]).2.1)) =
      writeOut (okCall (with_body reqPost5)) ("hallo").data 59 ∧
    ((drive (okCall (with_body reqPost5)) ("hallo").data [25, 20, 19, 25]).1.finished = true →
      (drive (okCall (with_body reqPost5)) ("hallo").data [25, 20, 19, 25]).1.lines = [] →
      (drive (okCall (with_body reqPost5)) ("hallo").data [25, 20, 19, 25]).2.2 =
        writeOut (okCall (with_body reqPost5)) ("hallo").data 59)) :=
  ⟨by decide,
   c1_transcript_equivalence reqPost5 5 (okCall (with_body reqPost5)) ("hallo").data
     [25, 20, 19, 25] 59 (by decide) (by decide) (by decide) (by decide)⟩

/-- C1 counterexample: the claim as stated fails.  For the POST with
content-length 5 and body hallo, sixty one-byte buffers have total 60,
at least the 59 bytes of the serialized request, yet the concatenation of
the produced fragments is empty, because no single header line of the
prologue fits in one byte; the single large write produces all 59 bytes. -/
theorem c1_counterexample :
    (List.replicate 60 (1 : Nat)).sum = 60 ∧
    (writeOut (okCall (with_body reqPost5)) ("hallo").data 1024).length = 59 ∧
    (drive (okCall (with_body reqPost5)) ("hallo").data (List.replicate 60 1)).2.2 = [] ∧
    (drive (okCall (with_body reqPost5)) ("hallo").data (List.replicate 60 1)).2.2 ≠
      writeOut (okCall (with_body reqPost5)) ("hallo").data 1024 := by
  decide

end HootClient

namespace HootClient

/-- Any successful write on a Length-framed Call keeps the content-length
accounting invariant: the body counter never exceeds n and equals n exactly
when the finished flag is set. -/
theorem write_invC4 (n : Nat) (st : CallState) (src : List Char) (d : Nat)
    (hfr : st.framing = .length n) (hle : st.sent ≤ n)
    (hiff : st.sent = n ↔ st.finished = true) :
    match write st src d with
    | .ok (st2, _, _) =>
      st2.framing = .length n ∧ st2.sent ≤ n ∧ (st2.sent = n ↔ st2.finished = true)
    | .error _ => True := by
  unfold write
  rcases h : flushLines st.lines d with ⟨pro, rest, rem⟩
  cases rest with
  | cons rl rls => exact ⟨hfr, hle, hiff⟩
  | nil =>
    cases hg : (st.finished && !src.isEmpty) with
    | true => simp
    | false =>
      rw [hfr]
      simp only [Bool.false_eq_true, if_false]
      by_cases hnlt : n < st.sent + src.length
      · rw [if_pos hnlt]
        trivial
      · rw [if_neg hnlt]
        have hkle : min (min src.length (n - st.sent)) rem ≤ n - st.sent := by
          have h1 := min_le_left (min src.length (n - st.sent)) rem
          have h2 := min_le_right src.length (n - st.sent)
          omega
        refine ⟨rfl, ?_, ?_⟩
        · show st.sent + min (min src.length (n - st.sent)) rem ≤ n
          omega
        · show st.sent + min (min src.length (n - st.sent)) rem = n ↔
            (st.finished || (st.sent + min (min src.length (n - st.sent)) rem == n)) = true
          simp only [Bool.or_eq_true, beq_iff_eq]
          constructor
          · intro hh
            exact Or.inr hh
          · rintro (hfin | hbeq)
            · have := hiff.mpr hfin
              omega
            · exact hbeq

/-- The invariant of write_invC4 holds after any sequence of operations. -/
theorem steps_invC4 (n : Nat) (ops : List (List Char × Nat)) :
    ∀ (st : CallState),
      st.framing = .length n → st.sent ≤ n → (st.sent = n ↔ st.finished = true) →
      ((steps st ops).framing = .length n ∧ (steps st ops).sent ≤ n ∧
       ((steps st ops).sent = n ↔ (steps st ops).finished = true)) := by
  induction ops with
  | nil => intro st h1 h2 h3; exact ⟨h1, h2, h3⟩
  | cons op rest ih =>
    intro st h1 h2 h3
    have hi := write_invC4 n st op.1 op.2 h1 h2 h3
    cases hw : write st op.1 op.2 with
    | error e =>
      rw [hw] at hi
      simp only [steps, hw]
      exact ih st h1 h2 h3
    | ok v =>
      rw [hw] at hi
      obtain ⟨st2, k, out⟩ := v
      simp only [steps, hw]
      exact ih st2 hi.1 hi.2.1 hi.2.2

/-- C4: for every Call with Length(n) framing, after every sequence of
successful operations the body counter bytes_sent_in_body is at most n,
and it equals n exactly when request_finished returns true: after writes
consuming body prefixes summing to n the flag is true, and before that it
is false. -/
theorem c4_length_invariant (r : HRequest) (n : Nat) (st0 : CallState)
    (ops : List (List Char × Nat))
    (h0 : with_body r = .ok st0) (hfr : st0.framing = .length n) :
    (steps st0 ops).sent ≤ n ∧
    ((steps st0 ops).sent = n ↔ request_finished (steps st0 ops) = true) := by
  obtain ⟨hs0, hfin0⟩ := with_body_facts r st0 h0
  have h3 : st0.sent = n ↔ st0.finished = true := by
    rw [hs0, hfin0, hfr]
    constructor
    · intro hh
      rw [← hh]
    · intro hh
      injection hh with h'
      omega
  obtain ⟨g1, g2, g3⟩ := steps_invC4 n ops st0 hfr (by omega) h3
  exact ⟨g2, g3⟩

/-- C4 witness: the POST with content-length 5, written in two body pieces
as in the post_with_short_body_input test. -/
theorem c4_length_invariant_witness :
    with_body reqPost5 = .ok (okCall (with_body reqPost5)) ∧
    ((steps (okCall (with_body reqPost5)) [(("ha").data, 1024), (("llo").data, 1024)]).sent ≤ 5 ∧
     ((steps (okCall (with_body reqPost5)) [(("ha").data, 1024), (("llo").data, 1024)]).sent = 5 ↔
      request_finished
        (steps (okCall (with_body reqPost5)) [(("ha").data, 1024), (("llo").data, 1024)]) = true)) :=
  ⟨by decide,
   c4_length_invariant reqPost5 5 (okCall (with_body reqPost5))
     [(("ha").data, 1024), (("llo").data, 1024)] (by decide) (by decide)⟩

end HootClient

namespace HootClient

/-- C5 (amended): in Length(n) framing with request_finished false, a write
whose buffer is large enough to complete the prologue (so the body-emission
step is reached) and whose src would overrun the declared length fails with
BodyLargerThanContentLength; the error result carries no consumed count and
no produced bytes, so no input is consumed and no body byte of the
offending call is copied out.  The original claim, with no condition on
dst, fails: a buffer too small for the remaining prologue makes the call
return successfully with (0, produced) before the overrun is ever checked
(see the counterexample). -/
theorem c5_overrun_rejected (n : Nat) (st : CallState) (src : List Char) (d : Nat)
    (hfr : st.framing = .length n) (hfin : st.finished = false)
    (hpro : totalLen st.lines ≤ d) (hover : n < st.sent + src.length) :
    write st src d = .error .BodyLargerThanContentLength := by
  have hfl := flushLines_all st.lines d hpro
  unfold write
  rw [hfl, hfin, hfr]
  simp only [Bool.false_and, Bool.false_eq_true, if_false, if_pos hover]

/-- C5 witness: the post_with_short_content_length test, content-length 2
and body hallo with an ample buffer. -/
theorem c5_overrun_rejected_witness :
    totalLen (okCall (with_body reqPost2)).lines ≤ 1024 ∧
    2 < (okCall (with_body reqPost2)).sent + ("hallo").data.length ∧
    write (okCall (with_body reqPost2)) ("hallo").data 1024 =
      .error .BodyLargerThanContentLength :=
  ⟨by decide, by decide,
   c5_overrun_rejected 2 (okCall (with_body reqPost2)) ("hallo").data 1024
     (by decide) (by decide) (by decide) (by decide)⟩

/-- C5 counterexample: the claim as stated fails.  The same overrunning
call (content-length 2, body hallo, so sent + src exceeds n) succeeds when
the buffer holds only one byte, because the prologue early-return comes
before the overrun check. -/
theorem c5_counterexample :
    (okCall (with_body reqPost2)).framing = .length 2 ∧
    (okCall (with_body reqPost2)).finished = false ∧
    2 < (okCall (with_body reqPost2)).sent + ("hallo").data.length ∧
    (write (okCall (with_body reqPost2)) ("hallo").data 1).isOk = true ∧
    write (okCall (with_body reqPost2)) ("hallo").data 1 ≠
      .error .BodyLargerThanContentLength := by
  decide

/-- Any successful write on a chunked Call keeps the framing chunked and
keeps the invariant that a finished Call has no unflushed prologue (the
finished flag is only ever set after the prologue has been fully
flushed). -/
theorem write_chunked_inv (st : CallState) (src : List Char) (d : Nat)
    (hfr : st.framing = .chunked) (hinv : st.finished = true → st.lines = []) :
    match write st src d with
    | .ok (st2, _, _) => st2.framing = .chunked ∧ (st2.finished = true → st2.lines = [])
    | .error _ => True := by
  unfold write
  rcases h : flushLines st.lines d with ⟨pro, rest, rem⟩
  cases rest with
  | cons rl rls =>
    refine ⟨hfr, ?_⟩
    intro hfin
    have hl := hinv hfin
    rw [hl] at h
    simp only [flushLines] at h
    simp at h
  | nil =>
    cases hg : (st.finished && !src.isEmpty) with
    | true => simp
    | false =>
      rw [hfr]
      simp only [Bool.false_eq_true, if_false]
      cases hsrc : src.isEmpty with
      | true =>
        simp only [if_true]
        cases hfin : st.finished with
        | true => exact ⟨rfl, fun _ => rfl⟩
        | false =>
          by_cases hrem : rem < 5
          · rw [if_pos hrem]
            trivial
          · rw [if_neg hrem]
            exact ⟨rfl, fun _ => rfl⟩
      | false =>
        simp only [Bool.false_eq_true, if_false]
        by_cases hd : maxChunkData src.length rem = 0
        · rw [if_pos hd]
          exact ⟨rfl, fun _ => rfl⟩
        · rw [if_neg hd]
          exact ⟨rfl, fun _ => rfl⟩

/-- The chunked invariant holds after any sequence of operations. -/
theorem steps_chunked_inv (ops : List (List Char × Nat)) :
    ∀ (st : CallState),
      st.framing = .chunked → (st.finished = true → st.lines = []) →
      ((steps st ops).framing = .chunked ∧
       ((steps st ops).finished = true → (steps st ops).lines = [])) := by
  induction ops with
  | nil => intro st h1 h2; exact ⟨h1, h2⟩
  | cons op rest ih =>
    intro st h1 h2
    have hi := write_chunked_inv st op.1 op.2 h1 h2
    cases hw : write st op.1 op.2 with
    | error e =>
      simp only [steps, hw]
      exact ih st h1 h2
    | ok v =>
      rw [hw] at hi
      obtain ⟨st2, k, out⟩ := v
      simp only [steps, hw]
      exact ih st2 hi.1 hi.2

/-- A chunked Call that has emitted the terminator (finished, prologue
flushed) rejects any further non-empty write with BodyContentAfterFinish
and treats any further empty write as a no-op returning (0, 0) with the
state unchanged. -/
theorem write_after_terminator (st : CallState) (src : List Char) (d : Nat)
    (hfr : st.framing = .chunked) (hfin : st.finished = true)
    (hlines : st.lines = []) :
    (src ≠ [] → write st src d = .error .BodyContentAfterFinish) ∧
    write st [] d = .ok (st, 0, []) := by
  obtain ⟨ls, fr, sn, fi⟩ := st
  simp only at hfr hfin hlines
  subst hfr hfin hlines
  constructor
  · intro hsrc
    cases src with
    | nil => exact absurd rfl hsrc
    | cons a as => rfl
  · rfl

/-- C6: idempotence of the chunked end-signal.  After any operation
sequence that leaves a chunked Call with request_finished true (the
terminator has been emitted), every write with non-empty src fails with
BodyContentAfterFinish, and every write with empty src succeeds as a no-op
returning (0, 0) and leaving the Call unchanged. -/
theorem c6_end_signal_idempotent (r : HRequest) (st0 : CallState)
    (ops : List (List Char × Nat)) (src : List Char) (d : Nat)
    (h0 : with_body r = .ok st0) (hfr : st0.framing = .chunked)
    (hfin : request_finished (steps st0 ops) = true) :
    (src ≠ [] → write (steps st0 ops) src d = .error .BodyContentAfterFinish) ∧
    write (steps st0 ops) [] d = .ok (steps st0 ops, 0, []) := by
  have hinv0 : st0.finished = true → st0.lines = [] := by
    intro hf0
    have hl := (with_body_facts r st0 h0).2.mp hf0
    rw [hfr] at hl
    cases hl
  obtain ⟨g1, g2⟩ := steps_chunked_inv ops st0 hfr hinv0
  exact write_after_terminator (steps st0 ops) src d g1 hfin (g2 hfin)

/-- C6 witness: the post_streaming_after_end scenario, streaming POST with
body hallo then the empty end-signal, then a write of more content. -/
theorem c6_end_signal_idempotent_witness :
    request_finished
      (steps (okCall (with_body reqPostStream)) [(("hallo").data, 1024), ([], 951)]) = true ∧
    ((("after end").data ≠ [] →
        write (steps (okCall (with_body reqPostStream)) [(("hallo").data, 1024), ([], 951)])
          (("after end").data) 1024 = .error .BodyContentAfterFinish) ∧
     write (steps (okCall (with_body reqPostStream)) [(("hallo").data, 1024), ([], 951)]) [] 1024 =
       .ok (steps (okCall (with_body reqPostStream)) [(("hallo").data, 1024), ([], 951)], 0, [])) :=
  ⟨by decide,
   c6_end_signal_idempotent reqPostStream (okCall (with_body reqPostStream))
     [(("hallo").data, 1024), ([], 951)] (("after end").data) 1024
     (by decide) (by decide) (by decide)⟩

/-- C7: constructor method and body-mode checks.  For every request whose
method forbids a body, the with-body constructor fails with
MethodForbidsBody carrying that method; for every request whose method
requires a body, the without-body constructor fails with
MethodRequiresBody carrying that method.  In both cases the constructor
returns an error, so no Call is constructed. -/
theorem c7_constructor_checks (r : HRequest) :
    (methodForbidsBody r.method = true →
      with_body r = .error (.MethodForbidsBody r.method)) ∧
    (methodRequiresBody r.method = true →
      without_body r = .error (.MethodRequiresBody r.method)) := by
  constructor
  · intro h
    unfold with_body chooseFramingWithBody
    rw [if_pos h]
  · intro h
    unfold without_body
    rw [if_pos h]

/-- C7 witness: the head_with_body and post_without_body tests. -/
theorem c7_constructor_checks_witness :
    methodForbidsBody reqHead.method = true ∧
    with_body reqHead = .error (.MethodForbidsBody .HEAD) ∧
    methodRequiresBody reqPost5.method = true ∧
    without_body reqPost5 = .error (.MethodRequiresBody .POST) :=
  ⟨by decide, (c7_constructor_checks reqHead).1 (by decide),
   by decide, (c7_constructor_checks reqPost5).2 (by decide)⟩

/-- C3: evaluating the model at Request::head on http://foo.test/page shows
the serialized request is the request line and the synthesized host header
with no empty CRLF line terminating the header block, exactly as the head
test asserts; the bytes of the claim, which end with an extra CRLF, are not
produced. -/
theorem c3_head_serialization :
    writeOut (okCall (without_body reqHead)) [] 1024 =
      ("HEAD /page HTTP/1.1\r\nhost: foo.test\r\n").data ∧
    writeOut (okCall (without_body reqHead)) [] 1024 ≠
      ("HEAD /page HTTP/1.1\r\nhost: foo.test\r\n\r\n").data := by
  decide

end HootClient

namespace Send

-- The two illegal-header tests of src/src/send.rs.
example :
    (header_bytes sendCall0 ((":bad:").data) (("fine value").data)).2 = some .HeaderName := by
  decide

example :
    (header_bytes sendCall0 (("x-broken").data)
      (("value").data ++ [Char.ofNat 0] ++ ("xx").data)).2 = some .HeaderValue := by
  decide

/-- C2: the forbidden-header check of src/src/send.rs rejects every name of
the same length as a forbidden header, not only the ASCII-case-insensitive
matches, because every arm of its inner comparison loop continues instead
of dismissing the candidate on a mismatch.  The name x-custom-water has the
fourteen characters of content-length, is case-insensitively equal to
neither forbidden name, and is still rejected with ForbiddenBodyHeader. -/
theorem c2_forbidden_header_divergence :
    check_forbidden_headers (("x-custom-water").data) HEADERS_FORBID_BODY
        .ForbiddenBodyHeader = .error .ForbiddenBodyHeader ∧
    asciiCaseInsensitiveEq (("x-custom-water").data) (("content-length").data) = false ∧
    asciiCaseInsensitiveEq (("x-custom-water").data) (("transfer-encoding").data) = false := by
  decide

/-- A successful staged write leaves the committed bytes and the capacity
untouched; only the staged region grows. -/
theorem write_bytes_spec (w w2 : Writer) (bs : List Char)
    (h : w.write_bytes bs = .ok w2) :
    w2.committed = w.committed ∧ w2.cap = w.cap ∧ w2.staged = w.staged ++ bs := by
  unfold Writer.write_bytes at h
  split at h
  · injection h with h'
    rw [← h']
    exact ⟨rfl, rfl, rfl⟩
  · cases h

theorem stage2_spec (o : Out) (name bytes : List Char) (w2 : Writer)
    (h : stage2 o name bytes = .ok w2) :
    w2.committed = o.committed ∧ w2.cap = o.cap ∧
    w2.staged = name ++ (": ").data ++ bytes := by
  unfold stage2 at h
  cases h1 : stage1 o name with
  | error e =>
    rw [h1] at h
    exact Except.noConfusion h
  | ok w1 =>
    rw [h1] at h
    have h1x : (o.writer).write_bytes (name ++ (": ").data) = .ok w1 := h1
    have h2x : w1.write_bytes bytes = .ok w2 := h
    obtain ⟨hc1, hp1, hs1⟩ := write_bytes_spec _ _ _ h1x
    obtain ⟨hc2, hp2, hs2⟩ := write_bytes_spec _ _ _ h2x
    refine ⟨hc2.trans hc1, hp2.trans hp1, ?_⟩
    rw [hs2, hs1]
    show ([] ++ (name ++ (": ").data)) ++ bytes = name ++ (": ").data ++ bytes
    rw [List.nil_append]

theorem stage_header_spec (o : Out) (name bytes : List Char) (w3 : Writer)
    (h : stage_header o name bytes = .ok w3) :
    w3.committed = o.committed ∧ w3.cap = o.cap ∧
    w3.staged = name ++ (": ").data ++ bytes ++ ("\r\n").data := by
  unfold stage_header at h
  cases h2 : stage2 o name bytes with
  | error e =>
    rw [h2] at h
    exact Except.noConfusion h
  | ok w2 =>
    rw [h2] at h
    have h3x : w2.write_bytes (("\r\n").data) = .ok w3 := h
    obtain ⟨hc2, hp2, hs2⟩ := stage2_spec o name bytes w2 h2
    obtain ⟨hc3, hp3, hs3⟩ := write_bytes_spec _ _ _ h3x
    refine ⟨hc3.trans hc2, hp3.trans hp2, ?_⟩
    rw [hs3, hs2]

/-- C8: atomicity on error.  Whenever header_bytes returns an error
(overflow while staging, ForbiddenBodyHeader, HeaderName or HeaderValue),
the committed output, the capacity and the phase of the Call are exactly
what they were before the operation: the staged bytes of the failed
attempt are dropped and never committed. -/
theorem c8_error_atomicity (c : SendCall) (name bytes : List Char)
    (h : (header_bytes c name bytes).2.isSome = true) :
    (header_bytes c name bytes).1.out.committed = c.out.committed ∧
    (header_bytes c name bytes).1.out.cap = c.out.cap ∧
    (header_bytes c name bytes).1.state = c.state := by
  cases hs : stage_header c.out name bytes with
  | error e =>
    have hres : header_bytes c name bytes = (c, some e) := by
      unfold header_bytes
      rw [hs]
    rw [hres]
    exact ⟨rfl, rfl, rfl⟩
  | ok w3 =>
    cases hv : header_validate name bytes with
    | some e =>
      have hres : header_bytes c name bytes = (c, some e) := by
        unfold header_bytes
        rw [hs, hv]
      rw [hres]
      exact ⟨rfl, rfl, rfl⟩
    | none =>
      have hres : header_bytes c name bytes =
          ({ out := w3.commit, state := c.state }, none) := by
        unfold header_bytes
        rw [hs, hv]
      rw [hres] at h
      simp at h

/-- Conversely, a successful header_bytes commits exactly the staged header
line: the committed bytes are extended by name, colon-space, value and
CRLF, and nothing else changes; this pins the commit discipline the
atomicity claim relies on. -/
theorem header_bytes_success (c : SendCall) (name bytes : List Char)
    (h : (header_bytes c name bytes).2 = none) :
    (header_bytes c name bytes).1.out.committed =
      c.out.committed ++ (name ++ (": ").data ++ bytes ++ ("\r\n").data) ∧
    (header_bytes c name bytes).1.out.cap = c.out.cap ∧
    (header_bytes c name bytes).1.state = c.state := by
  cases hs : stage_header c.out name bytes with
  | error e =>
    have hres : header_bytes c name bytes = (c, some e) := by
      unfold header_bytes
      rw [hs]
    rw [hres] at h
    exact Option.noConfusion h
  | ok w3 =>
    cases hv : header_validate name bytes with
    | some e =>
      have hres : header_bytes c name bytes = (c, some e) := by
        unfold header_bytes
        rw [hs, hv]
      rw [hres] at h
      exact Option.noConfusion h
    | none =>
      obtain ⟨hc, hp, hst⟩ := stage_header_spec c.out name bytes w3 hs
      have hres : header_bytes c name bytes =
          ({ out := w3.commit, state := c.state }, none) := by
        unfold header_bytes
        rw [hs, hv]
      rw [hres]
      refine ⟨?_, ?_, rfl⟩
      · show w3.commit.committed = _
        unfold Writer.commit
        rw [hc, hst]
      · show w3.commit.cap = _
        unfold Writer.commit
        exact hp

/-- C8 witness: the illegal header name test of src/src/send.rs, name
:bad: with a fine value, on an empty 1024-byte output. -/
theorem c8_error_atomicity_witness :
    (header_bytes sendCall0 ((":bad:").data) (("fine value").data)).2.isSome = true ∧
    ((header_bytes sendCall0 ((":bad:").data) (("fine value").data)).1.out.committed =
        sendCall0.out.committed ∧
     (header_bytes sendCall0 ((":bad:").data) (("fine value").data)).1.out.cap =
        sendCall0.out.cap ∧
     (header_bytes sendCall0 ((":bad:").data) (("fine value").data)).1.state =
        sendCall0.state) :=
  ⟨by decide, c8_error_atomicity sendCall0 ((":bad:").data) (("fine value").data) (by decide)⟩

/-- C9: the typestate transition without_body on the SEND_HEADERS HTTP_10
impl (src/src/send.rs line 103) returns a Call whose HTTP-version type
parameter is HTTP_11, not the HTTP_10 of the Call it was invoked on; every
other exit transition out of SEND_HEADERS preserves the version parameter,
so this one contradicts version preservation. -/
theorem c9_version_divergence :
    exitReceiverVersion .without_body_http10 = .HTTP_10 ∧
    exitResultVersion .without_body_http10 = .HTTP_11 ∧
    exitResultVersion .without_body_http10 ≠ exitReceiverVersion .without_body_http10 ∧
    exitResultState .without_body_http10 = .RECV_STATUS ∧
    exitResultVersion .with_body_http10 = exitReceiverVersion .with_body_http10 ∧
    exitResultVersion .with_body_http11 = exitReceiverVersion .with_body_http11 ∧
    exitResultVersion .with_chunked_http11 = exitReceiverVersion .with_chunked_http11 ∧
    exitResultVersion .without_body_http11 = exitReceiverVersion .without_body_http11 ∧
    exitResultVersion (.finish .HTTP_10) = exitReceiverVersion (.finish .HTTP_10) ∧
    exitResultVersion (.finish .HTTP_11) = exitReceiverVersion (.finish .HTTP_11) := by
  decide

end Send

namespace Usrv

/-- One read never loses decoded bytes: what it returns followed by what
the state still holds is exactly what the state held before. -/
theorem hootRead_conserves (st : HootBodyState) (n : Nat) :
    (hootRead st n).2 ++ restOf (hootRead st n).1 = restOf st := by
  obtain ⟨lo, ch⟩ := st
  cases lo with
  | cons a as =>
    simp only [hootRead, restOf, List.isEmpty_cons, if_pos]
    rw [← List.append_assoc, List.take_append_drop]
  | nil =>
    cases ch with
    | nil => simp [hootRead, restOf]
    | cons data rest =>
      simp only [hootRead, restOf, List.isEmpty_nil]
      rw [if_neg (by simp)]
      simp only [List.flatten_cons]
      rw [← List.append_assoc, List.take_append_drop, List.nil_append]

/-- Repeated reads conserve the decoded stream. -/
theorem readSeq_conserves (sizes : List Nat) :
    ∀ (st : HootBodyState),
      (readSeq st sizes).2 ++ restOf (readSeq st sizes).1 = restOf st := by
  induction sizes with
  | nil => intro st; rfl
  | cons n ns ih =>
    intro st
    simp only [readSeq]
    rw [List.append_assoc, ih (hootRead st n).1, hootRead_conserves]

/-- C10: the io Read implementation of HootBody loses no decoded body
byte.  A read with a non-empty leftover returns min of the leftover length
and the buffer length bytes from the front of the leftover and consumes no
new input (the pending decode steps are untouched); across any sequence of
reads, the concatenation of the returned bytes followed by what the state
still holds equals the decoded body stream, and once the state is drained
the concatenation is exactly the decoded stream, in order. -/
theorem c10_read_no_loss (st : HootBodyState) (n : Nat) (sizes : List Nat) :
    (st.leftover ≠ [] →
      (hootRead st n).2 = st.leftover.take (min st.leftover.length n) ∧
      (hootRead st n).1.leftover = st.leftover.drop (min st.leftover.length n) ∧
      (hootRead st n).1.chunks = st.chunks) ∧
    (readSeq st sizes).2 ++ restOf (readSeq st sizes).1 = restOf st ∧
    (restOf (readSeq st sizes).1 = [] → (readSeq st sizes).2 = restOf st) := by
  refine ⟨?_, readSeq_conserves sizes st, ?_⟩
  · intro h
    have hne : st.leftover.isEmpty = false := by
      cases hl : st.leftover with
      | nil => exact absurd hl h
      | cons a as => rfl
    unfold hootRead
    rw [hne]
    exact ⟨rfl, rfl, rfl⟩
  · intro h
    have hc := readSeq_conserves sizes st
    rw [h, List.append_nil] at hc
    exact hc

/-- C10 witness: two leftover bytes and three decode steps, drained by six
reads of small buffers. -/
theorem c10_read_no_loss_witness :
    bodyState0.leftover ≠ [] ∧
    restOf (readSeq bodyState0 [1, 3, 2, 4, 1, 1]).1 = [] ∧
    (((hootRead bodyState0 1).2 =
        bodyState0.leftover.take (min bodyState0.leftover.length 1) ∧
      (hootRead bodyState0 1).1.leftover =
        bodyState0.leftover.drop (min bodyState0.leftover.length 1) ∧
      (hootRead bodyState0 1).1.chunks = bodyState0.chunks) ∧
     (readSeq bodyState0 [1, 3, 2, 4, 1, 1]).2 ++
         restOf (readSeq bodyState0 [1, 3, 2, 4, 1, 1]).1 = restOf bodyState0 ∧
     (readSeq bodyState0 [1, 3, 2, 4, 1, 1]).2 = restOf bodyState0) :=
  ⟨by decide, by decide,
   (c10_read_no_loss bodyState0 1 [1, 3, 2, 4, 1, 1]).1 (by decide),
   (c10_read_no_loss bodyState0 1 [1, 3, 2, 4, 1, 1]).2.1,
   (c10_read_no_loss bodyState0 1 [1, 3, 2, 4, 1, 1]).2.2 (by decide)⟩

end Usrv
